import Mathlib

/-!
Verification of the blaze preprocessing core: a shallow embedding of
`blaze/command/preprocess.py` and `blaze/preprocess/record.py`, together with
theorems about the stable-set discoverer, the cache annotator, the
critical-request flagging step, the default training-glob computation and the
page-link crawler.
-/

open List

/-- Modelled from the spec: a Resource record (one fetched object of a page
load) as described by the data model: `url`, a type code, `size`, `order`,
`cache_time` and a `critical` flag.  The Python source represents it as a
NamedTuple (defined in `blaze.config.environment`, outside the available
sources); equality of values is componentwise tuple equality, as in Python. -/
structure Resource where
  url : String
  type : Nat
  size : Nat
  order : Nat
  cache_time : Int
  critical : Bool
deriving DecidableEq

/-- Modelled from the spec: a PushGroup (an ordered sequence of Resources with
a `trainable` flag), from `blaze.config.environment`, outside the available
sources. -/
structure PushGroup where
  resources : List Resource
  trainable : Bool
deriving DecidableEq

/-- Modelled from the spec: one entry of the cacheable-file listing exposed by
the persisted replay store (`FileStore`, outside the available sources): a
`host`, a `uri` and a `cache_time`. -/
structure CacheableFile where
  host : String
  uri : String
  cache_time : Int
deriving DecidableEq

/-- Modelled from the spec: a HAR entry as consumed by `get_har_resources`:
the request url (`h.request.url` in the source, flattened here) and the
`critical` flag. -/
structure HarEntry where
  request_url : String
  critical : Bool
deriving DecidableEq

/-- Replacement of the `cache_time` field, modelling Python's NamedTuple
`_replace(cache_time=...)`: it returns a new record and leaves the receiver
unchanged. -/
def Resource.replaceCacheTime (r : Resource) (t : Int) : Resource :=
  { r with cache_time := t }

/-- Replacement of the `critical` field, modelling Python's NamedTuple
`_replace(critical=...)`: it returns a new record and leaves the receiver
unchanged. -/
def HarEntry.replaceCritical (e : HarEntry) (c : Bool) : HarEntry :=
  { e with critical := c }

/-- The association list built by `annotate_cacheable_objects`:
`{f"http://{f.host}{f.uri}": f.cache_time}` entries followed by the
`https://` entries, in file order.  Later entries override earlier ones on
lookup, matching Python dict-merge semantics. -/
def cacheTimesKeys (files : List CacheableFile) : List (String × Int) :=
  (files.map fun f => ("http://" ++ f.host ++ f.uri, f.cache_time)) ++
  (files.map fun f => ("https://" ++ f.host ++ f.uri, f.cache_time))

/-- Python `dict` lookup with a default (`dict.get(k, d)`): the binding
inserted last wins, absent keys give the default. -/
def dictGet (l : List (String × Int)) (k : String) (dflt : Int) : Int :=
  match l.reverse.find? (fun p => p.1 == k) with
  | some p => p.2
  | none => dflt

/-- `cache_times.get(res.url, 0)` from `annotate_cacheable_objects`. -/
def cacheTimesLookup (files : List CacheableFile) (url : String) : Int :=
  dictGet (cacheTimesKeys files) url 0

/-- Embedding of `annotate_cacheable_objects` from
`blaze/command/preprocess.py` (the replay store is abstracted as the list of
cacheable files it would report).  The source iterates over all resources and
evaluates `res._replace(cache_time=cache_time)` for every positive lookup,
but `_replace` returns a fresh NamedTuple and the result is never stored, so
the loop computes values that are discarded; the function then returns the
push groups it was given.  The discarded computation is kept here as a
dead `let` binding so the embedding mirrors the source statement for
statement. -/
def annotate_cacheable_objects (files : List CacheableFile)
    (push_groups : List PushGroup) : List PushGroup :=
  let _ := push_groups.map fun group =>
    group.resources.map fun res =>
      let cache_time := cacheTimesLookup files res.url
      if cache_time > 0 then res.replaceCacheTime cache_time else res
  push_groups

/-- Embedding of `get_har_resources` from `blaze/command/preprocess.py`.  The
two captures (`capture_har_in_replay_server` twice) are abstracted as the two
HAR entry lists they produce, and `har_entries_to_resources` (defined outside
the available sources) is abstracted as the parameter `h2r`.  When
`extract_critical_requests` is set, the source computes the set of critical
request urls of the second capture and, for each matching entry of the first
capture, evaluates `res._replace(critical=True)` — whose result is discarded —
and finally returns `har_entries_to_resources(har)` on the unmodified first
capture.  The discarded loop is kept as a dead `let` binding. -/
def get_har_resources_core (h2r : List HarEntry → List Resource)
    (har har2 : List HarEntry) (extract_critical_requests : Bool) : List Resource :=
  if !extract_critical_requests then h2r har
  else
    let critical_requests := (har2.filter fun h => h.critical).map fun h => h.request_url
    let _ := har.map fun res =>
      if res.request_url ∈ critical_requests then res.replaceCritical true else res
    h2r har

/-- The successful capture runs of `find_url_stable_set`: the source skips a
run whose resource list is empty (`if not resource_list: continue`) both for
the precedence counts and for the intersection. -/
def successfulRuns (runs : List (List Resource)) : List (List Resource) :=
  runs.filter fun run => !run.isEmpty

/-- The number of index pairs `i < j` in one run with `run[i].url = u` and
`run[j].url = v` — the contribution of one run to `pos_dict[u][v]`. -/
def countPairsFrom (u v : String) : List Resource → Nat
  | [] => 0
  | r :: rest =>
    (if r.url = u then (rest.filter fun s => s.url == v).length else 0) +
      countPairsFrom u v rest

/-- `pos_dict[u][v]` of `find_url_stable_set`: over all successful runs, how
often a resource with url `u` appeared (strictly) before one with url `v`.
Missing keys of the defaultdict read as 0, which the sum over contributions
reproduces. -/
def posCount (runs : List (List Resource)) (u v : String) : Nat :=
  ((successfulRuns runs).map (countPairsFrom u v)).sum

/-- The comparator passed to `functools.cmp_to_key` in `find_url_stable_set`:
`lambda a, b: -pos_dict[a.url][b.url] + (len(resource_lists) // 2)`, where
`resource_lists` holds exactly the successful runs. -/
def stableSetCmp (runs : List (List Resource)) (a b : Resource) : Int :=
  -(posCount runs a.url b.url : Int) + (((successfulRuns runs).length / 2 : Nat) : Int)

/-- The element-order test induced by a stable comparison sort under
`cmp_to_key`: an element `a` may stay in front of `b` exactly when the
comparator does not demand the swap, i.e. when `cmp b a ≥ 0`. -/
def stableSetLe (runs : List (List Resource)) (a b : Resource) : Bool :=
  decide (0 ≤ stableSetCmp runs b a)

/-- One step of a stable insertion sort with a Boolean order `le`:  insert `a`
in front of the first element it may precede. -/
def pyInsert {α : Type} (le : α → α → Bool) (a : α) : List α → List α
  | [] => [a]
  | b :: l => if le a b then a :: b :: l else b :: pyInsert le a l

/-- A stable comparison sort (Python's `list.sort` is stable Timsort; any
stable comparison sort agrees with it on the properties proved below, which
use only that the output is a permutation of the input and that runs of
mutually tied elements keep their input order). -/
def pyStableSort {α : Type} (le : α → α → Bool) : List α → List α
  | [] => []
  | a :: l => pyInsert le a (pyStableSort le l)

/-- Embedding of `find_url_stable_set` from `blaze/preprocess/record.py`.
The captures are abstracted as the list of per-run resource lists they
produce.  `enum` stands for the list `list(set.intersection(*resource_lists))`
of the source: Python enumerates the intersection set in hash order, which is
not determined by the inputs, so the enumeration is an explicit parameter,
constrained by `Enumerates` below to list exactly the intersection of the
successful runs.  When no run is successful the source takes `common_res = []`
(guarding `set.intersection` against an empty argument list); otherwise the
enumeration is sorted with the comparator `stableSetCmp`. -/
def find_url_stable_set_core (runs : List (List Resource))
    (enum : List Resource) : List Resource :=
  if (successfulRuns runs).isEmpty then []
  else pyStableSort (stableSetLe runs) enum

/-- `enum` lists `set.intersection(*resource_lists)` of the successful runs:
it has no duplicates, every listed resource is in every successful run, and
every resource of a successful run lying in all successful runs is listed. -/
def Enumerates (runs : List (List Resource)) (enum : List Resource) : Prop :=
  enum.Nodup ∧
  (∀ r ∈ enum, ∀ run ∈ successfulRuns runs, r ∈ run) ∧
  (∀ run ∈ successfulRuns runs, ∀ r ∈ run,
    (∀ run2 ∈ successfulRuns runs, r ∈ run2) → r ∈ enum)

instance decEnumerates (runs : List (List Resource)) (enum : List Resource) :
    Decidable (Enumerates runs enum) := by
  unfold Enumerates
  exact inferInstance

/-- The ordering criterion in the words of the spec sentence under test:
resource `a` goes before `b` when `P[b][a] - P[a][b]` is more negative than
`len(successful_runs) // 2`, i.e. below its negation. -/
def specClaimedBefore (runs : List (List Resource)) (a b : Resource) : Prop :=
  (posCount runs b.url a.url : Int) - (posCount runs a.url b.url : Int) <
    -(((successfulRuns runs).length / 2 : Nat) : Int)

/-- Embedding of the default computation for `--train_domain_globs` in the
`preprocess` command: `args.train_domain_globs or ["*{}*".format(domain)]`.
`none` stands for an absent argument; Python's `or` also replaces a supplied
empty list. -/
def train_domain_globs_of (supplied : Option (List String)) (domain : String) :
    List String :=
  match supplied with
  | none => ["*" ++ domain ++ "*"]
  | some gs => if gs.isEmpty then ["*" ++ domain ++ "*"] else gs

/-- Modelled from the spec: the outcome of fetching and parsing one url in
`get_page_links`.  `requestError` covers a `requests` exception (including a
non-success status raised by `raise_for_status`), `parseError` a failure of
`ElementTree.fromstring`, and `page` carries, for each `<a>` element found,
its `href` attribute — `none` when the attribute is absent (`link.get("href")`
returns Python `None`). -/
inductive FetchResult where
  | requestError : FetchResult
  | parseError : FetchResult
  | page : List (Option String) → FetchResult
deriving DecidableEq

/-- Modelled from the spec: `blaze.util.seq.ordered_uniq` (outside the
available sources) deduplicates a list keeping the first occurrence of each
element in order (auxiliary recursion over the input with the set of elements
already emitted). -/
def ordered_uniq_aux (seen : List String) : List String → List String
  | [] => []
  | x :: xs =>
    if x ∈ seen then ordered_uniq_aux seen xs
    else x :: ordered_uniq_aux (x :: seen) xs

/-- Modelled from the spec: `ordered_uniq` keeps the first occurrence of each
element. -/
def ordered_uniq (l : List String) : List String := ordered_uniq_aux [] l

/-- The body of the link loop of `get_page_links`, one anchor at a time.
`recurse` is the crawl at the next smaller depth.  For an anchor without an
`href` attribute the source evaluates `link_url.startswith(...)` on Python
`None`, which raises `AttributeError`; every raised exception propagates, so
the whole computation is in `Except Unit`.  Anchors whose url starts with
neither `"http"` nor `"/"`, or whose domain (via `Url.parse`, abstracted as
`dom`) differs from the page domain, are skipped; otherwise the url and the
recursive crawl results are appended in source order. -/
def processAnchors (dom : String → String) (domain : String)
    (recurse : String → Except Unit (List String)) :
    List (Option String) → Except Unit (List String)
  | [] => Except.ok []
  | none :: _ => Except.error ()
  | some u :: rest =>
    if !(u.startsWith "http" || u.startsWith "/") then
      processAnchors dom domain recurse rest
    else if dom u ≠ domain then
      processAnchors dom domain recurse rest
    else
      match recurse u with
      | Except.error e => Except.error e
      | Except.ok sub =>
        match processAnchors dom domain recurse rest with
        | Except.error e => Except.error e
        | Except.ok more => Except.ok (u :: (sub ++ more))

/-- The final statement of `get_page_links`: on a normally finished link loop
the collected links are deduplicated by `ordered_uniq`; a raised exception
keeps propagating. -/
def wrapLinks (x : Except Unit (List String)) : Except Unit (List String) :=
  match x with
  | Except.error e => Except.error e
  | Except.ok links => Except.ok (ordered_uniq links)

/-- Embedding of `get_page_links` from `blaze/preprocess/record.py`.  The web
is abstracted as a function from url to `FetchResult` and `Url.parse(u).domain`
as `dom`.  Depth 0 returns `[]` before any fetch; a fetch or parse failure is
caught and returns `[]`; otherwise the anchors are processed by
`processAnchors` and the collected links deduplicated by `ordered_uniq`. -/
def get_page_links (web : String → FetchResult) (dom : String → String) :
    Nat → String → Except Unit (List String)
  | 0 => fun _ => Except.ok []
  | d + 1 => fun url =>
    match web url with
    | FetchResult.requestError => Except.ok []
    | FetchResult.parseError => Except.ok []
    | FetchResult.page anchors =>
      wrapLinks (processAnchors dom (dom url) (get_page_links web dom d) anchors)

/-! Concrete example inputs used by witnesses and counterexamples. -/

/-- A resource with url `"a"`. -/
def resA : Resource := ⟨"a", 0, 0, 0, 0, false⟩

/-- A resource with url `"b"`. -/
def resB : Resource := ⟨"b", 0, 0, 0, 0, false⟩

/-- Two successful runs observing `a` and `b` in opposite orders. -/
def exRuns : List (List Resource) := [[resA, resB], [resB, resA]]

/-- Three successful runs: twice `a` before `b`, once `b` before `a`. -/
def exRuns2 : List (List Resource) := [[resA, resB], [resA, resB], [resB, resA]]

/-- A cacheable file reconstructing to the url `http://h/x` with a positive
cache time. -/
def exFile : CacheableFile := ⟨"h", "/x", 100⟩

/-- A resource whose url matches `exFile` and whose cache time is 0. -/
def exResource : Resource := ⟨"http://h/x", 0, 0, 0, 0, false⟩

/-- A push group holding just `exResource`. -/
def exGroup : PushGroup := ⟨[exResource], true⟩

/-- A primary-capture HAR entry with `critical = False`. -/
def exHarEntry : HarEntry := ⟨"http://a", false⟩

/-- A comparison-capture HAR entry for the same url with `critical = True`. -/
def exHarEntry2 : HarEntry := ⟨"http://a", true⟩

/-- A web in which every page holds a single anchor without `href`. -/
def exWeb : String → FetchResult := fun _ => FetchResult.page [none]

/-! Helper lemmas. -/

theorem pyInsert_perm {α : Type} (le : α → α → Bool) (a : α) (l : List α) :
    (pyInsert le a l).Perm (a :: l) := by
  induction l with
  | nil => exact List.Perm.refl _
  | cons b l ih =>
    unfold pyInsert
    by_cases h : le a b
    · simp [h]
    · simp only [h, if_neg, Bool.false_eq_true, if_false]
      exact (ih.cons b).trans (List.Perm.swap a b l)

theorem pyStableSort_perm {α : Type} (le : α → α → Bool) (l : List α) :
    (pyStableSort le l).Perm l := by
  induction l with
  | nil => exact List.Perm.refl _
  | cons a l ih => exact (pyInsert_perm le a _).trans (ih.cons a)

theorem successfulRuns_invariant (runs : List (List Resource)) :
    successfulRuns (successfulRuns runs) = successfulRuns runs := by
  unfold successfulRuns
  rw [List.filter_filter]
  apply List.filter_congr
  intro run _
  cases run <;> simp [List.isEmpty]

theorem find_url_stable_set_core_congr {runs runs2 : List (List Resource)}
    (h : successfulRuns runs = successfulRuns runs2) (enum : List Resource) :
    find_url_stable_set_core runs enum = find_url_stable_set_core runs2 enum := by
  unfold find_url_stable_set_core stableSetLe stableSetCmp posCount
  simp only [h]

theorem processAnchors_error_of_none (dom : String → String) (domain : String)
    (recurse : String → Except Unit (List String)) :
    ∀ anchors : List (Option String), none ∈ anchors →
      processAnchors dom domain recurse anchors = Except.error () := by
  intro anchors
  induction anchors with
  | nil => intro h; cases h
  | cons a rest ih =>
    intro h
    match a with
    | none => rfl
    | some u =>
      have hrest : none ∈ rest := by
        cases h with
        | tail _ h2 => exact h2
      show processAnchors dom domain recurse (some u :: rest) = Except.error ()
      simp only [processAnchors]
      by_cases h1 : (!(u.startsWith "http" || u.startsWith "/")) = true
      · rw [if_pos h1]
        exact ih hrest
      · rw [if_neg h1]
        by_cases h2 : dom u ≠ domain
        · rw [if_pos h2]
          exact ih hrest
        · rw [if_neg h2]
          cases hru : recurse u with
          | error e => rfl
          | ok sub =>
            rw [ih hrest]

instance decSpecClaimedBefore (runs : List (List Resource)) (a b : Resource) :
    Decidable (specClaimedBefore runs a b) := by
  unfold specClaimedBefore
  exact inferInstance

/-! Claim theorems. -/

/-- C1: evaluation of the code at the failing input.  One cacheable file
reconstructs to the url of the single resource with cache time 100 > 0, yet
`annotate_cacheable_objects` returns the push groups unchanged and the
resource's `cache_time` stays 0: the looked-up value is computed but the
`_replace` result is discarded, so the claimed annotation never happens. -/
theorem annotate_cacheable_objects_discards_lookup :
    cacheTimesLookup [exFile] exResource.url = 100 ∧
    annotate_cacheable_objects [exFile] [exGroup] = [exGroup] ∧
    (annotate_cacheable_objects [exFile] [exGroup]).map
      (fun g => g.resources.map Resource.cache_time) = [[0]] :=
  ⟨by decide, rfl, by decide⟩

/-- C8: `annotate_cacheable_objects` returns exactly the push groups it was
given (same groups, same resources, same order), and applying it twice with
the same record directory yields the same state, including identical
`cache_time` values, as applying it once. -/
theorem annotate_cacheable_objects_identity_idempotent
    (files : List CacheableFile) (push_groups : List PushGroup) :
    annotate_cacheable_objects files push_groups = push_groups ∧
    annotate_cacheable_objects files (annotate_cacheable_objects files push_groups) =
      annotate_cacheable_objects files push_groups :=
  ⟨rfl, rfl⟩

/-- C5: evaluation of the code at the failing input.  With critical-request
extraction enabled, the single entry of the primary capture has the same
request url as a critical entry of the comparison capture, yet the returned
resources are computed from the unmodified primary capture, whose entry still
carries `critical = false`: the `_replace(critical=True)` result is
discarded. -/
theorem get_har_resources_ignores_critical :
    ∀ h2r : List HarEntry → List Resource,
      get_har_resources_core h2r [exHarEntry] [exHarEntry2] true = h2r [exHarEntry] ∧
      exHarEntry.request_url = exHarEntry2.request_url ∧
      exHarEntry2.critical = true ∧ exHarEntry.critical = false :=
  fun _ => ⟨rfl, rfl, rfl, rfl⟩

/-- C2 counterexample: with three successful runs (`a` before `b` twice, `b`
before `a` once) the comparator of `find_url_stable_set` places `a` before `b`
(its value is negative), although `P[b][a] - P[a][b] = -1` is not more
negative than `len(successful_runs) // 2 = 1`: the claimed criterion
disagrees with the code at this input. -/
theorem stable_set_cmp_spec_counterexample :
    stableSetCmp exRuns2 resA resB < 0 ∧ ¬ specClaimedBefore exRuns2 resA resB := by
  decide

/-- C2 amended: the comparator of `find_url_stable_set` places `a` before `b`
(returns a negative value) exactly when `P[a][b]` exceeds
`len(successful_runs) // 2`, a simple majority of the successful runs; it
never consults `P[b][a]`. -/
theorem stable_set_cmp_margin (runs : List (List Resource)) (a b : Resource) :
    stableSetCmp runs a b < 0 ↔
      ((successfulRuns runs).length / 2 : Nat) < posCount runs a.url b.url := by
  unfold stableSetCmp
  omega

/-- C3: every resource returned by `find_url_stable_set` belongs to every
successful (non-empty) capture run, and runs that produced zero resources are
skipped entirely: filtering them out of the input leaves the result
unchanged. -/
theorem find_url_stable_set_subset_all_runs (runs : List (List Resource))
    (enum : List Resource) (h : Enumerates runs enum) :
    (∀ r ∈ find_url_stable_set_core runs enum, ∀ run ∈ runs, run ≠ [] → r ∈ run) ∧
    find_url_stable_set_core runs enum =
      find_url_stable_set_core (runs.filter fun run => !run.isEmpty) enum := by
  constructor
  · intro r hr run hrun hne
    unfold find_url_stable_set_core at hr
    by_cases hemp : (successfulRuns runs).isEmpty = true
    · rw [if_pos hemp] at hr
      cases hr
    · rw [if_neg hemp] at hr
      have hmem : r ∈ enum := ((pyStableSort_perm _ enum).mem_iff).mp hr
      apply h.2.1 r hmem
      unfold successfulRuns
      rw [List.mem_filter]
      refine ⟨hrun, ?_⟩
      cases run with
      | nil => exact absurd rfl hne
      | cons x xs => rfl
  · exact find_url_stable_set_core_congr (successfulRuns_invariant runs).symm enum

/-- C3 witness: the intersection law at two concrete two-resource runs. -/
theorem find_url_stable_set_subset_all_runs_witness :
    (∀ r ∈ find_url_stable_set_core exRuns [resA, resB],
      ∀ run ∈ exRuns, run ≠ [] → r ∈ run) ∧
    find_url_stable_set_core exRuns [resA, resB] =
      find_url_stable_set_core (exRuns.filter fun run => !run.isEmpty) [resA, resB] :=
  find_url_stable_set_subset_all_runs exRuns [resA, resB] (by decide)

/-- C4: a failed capture run — modelled, per the spec, as a run producing
zero resources — is dropped wherever it occurs and discovery proceeds with
the remaining runs unchanged; when every run failed the function returns the
empty list instead of raising an error. -/
theorem find_url_stable_set_drops_failed_runs (runs1 runs2 : List (List Resource))
    (enum : List Resource) :
    find_url_stable_set_core (runs1 ++ [] :: runs2) enum =
      find_url_stable_set_core (runs1 ++ runs2) enum ∧
    ((∀ run ∈ runs1 ++ runs2, run = []) →
      find_url_stable_set_core (runs1 ++ runs2) enum = []) := by
  constructor
  · apply find_url_stable_set_core_congr
    unfold successfulRuns
    simp
  · intro hall
    have hnil : successfulRuns (runs1 ++ runs2) = [] := by
      unfold successfulRuns
      rw [List.filter_eq_nil_iff]
      intro run hrun
      rw [hall run hrun]
      decide
    unfold find_url_stable_set_core
    rw [hnil]
    rfl

/-- C4 witness: two failed runs plus one dropped failed run give the empty
list without an error. -/
theorem find_url_stable_set_drops_failed_runs_witness :
    (find_url_stable_set_core ([] ++ [] :: [[], []]) [] =
      find_url_stable_set_core ([] ++ [[], []]) []) ∧
    find_url_stable_set_core (([] : List (List Resource)) ++ [[], []]) [] = [] :=
  ⟨(find_url_stable_set_drops_failed_runs [] [[], []] []).1,
   (find_url_stable_set_drops_failed_runs [] [[], []] []).2 (by decide)⟩

/-- C6 counterexample: two runs observe `a` and `b` in opposite orders, so the
comparator ties; both `[a, b]` and `[b, a]` are valid hash-order enumerations
of the intersection set, and the two invocations return different lists. -/
theorem find_url_stable_set_order_counterexample :
    Enumerates exRuns [resA, resB] ∧ Enumerates exRuns [resB, resA] ∧
    find_url_stable_set_core exRuns [resA, resB] ≠
      find_url_stable_set_core exRuns [resB, resA] := by
  decide

/-- C6 amended: two invocations of `find_url_stable_set` on identical capture
runs return the same resources — the outputs are permutations of each other —
but the order can differ when the set-enumeration (hash) orders differ, so
byte-for-byte equality of the returned lists is not guaranteed. -/
theorem find_url_stable_set_perm_of_enums (runs : List (List Resource))
    (e1 e2 : List Resource) (h1 : Enumerates runs e1) (h2 : Enumerates runs e2) :
    (find_url_stable_set_core runs e1).Perm (find_url_stable_set_core runs e2) := by
  unfold find_url_stable_set_core
  by_cases hemp : (successfulRuns runs).isEmpty = true
  · rw [if_pos hemp, if_pos hemp]
  · rw [if_neg hemp, if_neg hemp]
    have hne : successfulRuns runs ≠ [] := by
      intro hcontra
      rw [hcontra] at hemp
      exact hemp rfl
    obtain ⟨run0, hrun0⟩ := List.exists_mem_of_ne_nil _ hne
    have hmem : ∀ r, r ∈ e1 ↔ r ∈ e2 := by
      intro r
      constructor
      · intro hr
        have hall := h1.2.1 r hr
        exact h2.2.2 run0 hrun0 r (hall run0 hrun0) hall
      · intro hr
        have hall := h2.2.1 r hr
        exact h1.2.2 run0 hrun0 r (hall run0 hrun0) hall
    have he : e1.Perm e2 := (List.perm_ext_iff_of_nodup h1.1 h2.1).mpr hmem
    exact (pyStableSort_perm _ e1).trans (he.trans (pyStableSort_perm _ e2).symm)

/-- C6 witness: the permutation guarantee at the concrete tied runs with the
two opposite enumerations. -/
theorem find_url_stable_set_perm_of_enums_witness :
    (find_url_stable_set_core exRuns [resA, resB]).Perm
      (find_url_stable_set_core exRuns [resB, resA]) :=
  find_url_stable_set_perm_of_enums exRuns [resA, resB] [resB, resA]
    (by decide) (by decide)

/-- C7 counterexample: for the domain `example.com` the computed default glob
list is `["*example.com*"]`, not `["*.example.com*"]` as claimed. -/
theorem default_globs_counterexample :
    train_domain_globs_of none "example.com" ≠ ["*.example.com*"] := by
  decide

/-- C7 amended: when no `train_domain_globs` are supplied (the argument is
absent, or present and empty), the default pattern list for a page with
domain `D` is exactly `["*D*"]` — a substring glob without a leading dot. -/
theorem default_globs_value (domain : String) :
    train_domain_globs_of none domain = ["*" ++ domain ++ "*"] ∧
    train_domain_globs_of (some []) domain = ["*" ++ domain ++ "*"] :=
  ⟨rfl, rfl⟩

/-- C9: whenever the fetched page parses into anchors one of which lacks an
`href` attribute, `get_page_links` raises (the code calls `.startswith` on the
absent attribute value `None`), for any crawl depth at least 1. -/
theorem get_page_links_missing_href_raises (web : String → FetchResult)
    (dom : String → String) (url : String) (d : Nat)
    (anchors : List (Option String)) (hpage : web url = FetchResult.page anchors)
    (hnone : none ∈ anchors) :
    get_page_links web dom (d + 1) url = Except.error () := by
  have hstep : get_page_links web dom (d + 1) url =
      wrapLinks (processAnchors dom (dom url) (get_page_links web dom d) anchors) := by
    simp only [get_page_links]
    rw [hpage]
  rw [hstep,
    processAnchors_error_of_none dom (dom url) (get_page_links web dom d) anchors hnone]
  rfl

/-- C9 witness: a page with a single anchor without `href` makes the crawl
raise. -/
theorem get_page_links_missing_href_raises_witness :
    get_page_links exWeb (fun _ => "d") 1 "u" = Except.error () :=
  get_page_links_missing_href_raises exWeb (fun _ => "d") "u" 0 [none] rfl (by decide)

/-- C10: at depth 0 the crawl returns the empty list for every possible web
(so without fetching anything), and at positive depth a fetch failure or a
parse failure of the requested url makes it return the empty list instead of
propagating the error. -/
theorem get_page_links_failure_returns_nil (web : String → FetchResult)
    (dom : String → String) (url : String) (d : Nat) :
    get_page_links web dom 0 url = Except.ok [] ∧
    (web url = FetchResult.requestError →
      get_page_links web dom (d + 1) url = Except.ok []) ∧
    (web url = FetchResult.parseError →
      get_page_links web dom (d + 1) url = Except.ok []) := by
  refine ⟨rfl, ?_, ?_⟩ <;> intro h <;> unfold get_page_links <;> rw [h]

/-- C10 witness: a url whose fetch fails, a url whose body fails to parse, and
a depth-0 crawl all return the empty list. -/
theorem get_page_links_failure_returns_nil_witness :
    get_page_links (fun _ => FetchResult.requestError) (fun _ => "d") 1 "u" =
      Except.ok [] ∧
    get_page_links (fun _ => FetchResult.parseError) (fun _ => "d") 1 "u" =
      Except.ok [] ∧
    get_page_links exWeb (fun _ => "d") 0 "u" = Except.ok [] :=
  ⟨(get_page_links_failure_returns_nil (fun _ => FetchResult.requestError)
      (fun _ => "d") "u" 0).2.1 rfl,
   (get_page_links_failure_returns_nil (fun _ => FetchResult.parseError)
      (fun _ => "d") "u" 0).2.2 rfl,
   (get_page_links_failure_returns_nil exWeb (fun _ => "d") "u" 0).1⟩
